import Mathlib

/-!
Verification of the hybrid hook layer (`internal_hvh/misc/hybrid_hook.h`).

The layer has two concrete hook kinds behind a common polymorphic surface:

* `c_detour` — an inline detour on one free-function address, backed by an
  external patch engine (PolyHook2 `x86Detour`).  Its state is the source
  address, the trampoline address produced by the engine, and whether an
  engine session (`m_detour` unique_ptr) is currently held.
* `c_vtable_hook` — zero or more slot redirections on one object instance's
  virtual dispatch table, in one of two strategies (`vfunc_swap`: in-place
  single-slot overwrite; `vtable_swap`: clone the whole table, redirect one
  slot in the clone, repoint the instance).

The external patch engine is modelled by oracles: for the detour an
`engine : Nat → Nat → Option Nat` giving the trampoline on success; for the
vtable strategies a success predicate (`vfunc_swap`) and a clone-address
allocator (`vtable_swap`).  Memory relevant to vtable hooks is explicit: a
map from instance address to vtable pointer, and a map from table address to
the table contents (a list of function-pointer values).  An out-of-bounds
slot read is undefined behavior in the C++ source, so `c_vtable_hook.apply`
is `Option`-valued and returns `none` exactly on such a read.
-/

/-- State of a `c_detour`: source address, stored trampoline (PolyHook2
writes it as u64; 0 means not installed), and whether the engine session
(`m_detour` unique_ptr in the source) is held. -/
structure c_detour where
  m_src : Nat
  m_trampoline : Nat
  m_detour : Bool
deriving DecidableEq, Repr

/-- `c_detour(address_t src)` constructor: binds the source address; the
trampoline starts at 0 and no session is held. -/
def c_detour.ofSrc (src : Nat) : c_detour :=
  { m_src := src, m_trampoline := 0, m_detour := false }

/-- `c_detour::apply(address_t dest)`.  The engine oracle returns the
trampoline on success, `none` on failure.  The result is the returned
address, the new state, and the number of engine `hook()` calls issued
(0 or 1), so that "performs no further patching" is observable. -/
def c_detour.apply (engine : Nat → Nat → Option Nat) (s : c_detour)
    (dest : Nat) : Nat × c_detour × Nat :=
  if s.m_detour then
    (s.m_trampoline, s, 0)
  else if s.m_src = 0 ∨ dest = 0 then
    (0, s, 0)
  else
    match engine s.m_src dest with
    | none => (0, { s with m_detour := false, m_trampoline := 0 }, 1)
    | some t => (t, { s with m_detour := true, m_trampoline := t }, 1)

/-- `c_detour::unhook()`: if a session is held, undo the redirect, release
the session and reset the trampoline; otherwise a no-op. -/
def c_detour.unhook (s : c_detour) : c_detour :=
  if s.m_detour then { s with m_detour := false, m_trampoline := 0 } else s

/-- `c_detour::apply(const uint32_t, address_t)` — the unused overload:
returns 0, no state change. -/
def c_detour.applyAt (s : c_detour) (_index _dest : Nat) : Nat × c_detour :=
  (0, s)

/-- The spec's installed-state invariant for a detour:
`trampoline_address != 0` iff the patch session is present. -/
def detourInv (s : c_detour) : Prop :=
  s.m_trampoline ≠ 0 ↔ s.m_detour = true

instance (s : c_detour) : Decidable (detourInv s) := by
  unfold detourInv; infer_instance

/-- A concrete always-succeeding detour engine used by closed witnesses. -/
def engineConst5 : Nat → Nat → Option Nat := fun _ _ => some 5

/-- A concrete always-failing detour engine used by closed witnesses. -/
def engineFail : Nat → Nat → Option Nat := fun _ _ => none

/-- Strategy of a `c_vtable_hook` (`enum class mode`). -/
inductive hookMode where
  | vfunc_swap
  | vtable_swap
deriving DecidableEq, Repr

/-- The strategy-specific engine handle stored in a `HookEntry`: a
`PLH::VFuncSwapHook` remembers the table address, slot index and captured
original value it writes back on `unHook`; a `PLH::VTableSwapHook`
remembers the instance and the original vtable pointer it restores. -/
inductive HookHandle where
  | vfunc (table index orig : Nat)
  | vtable (inst origVptr : Nat)
deriving DecidableEq, Repr

/-- `c_vtable_hook::HookEntry`: slot index, the captured original function
pointer, and the owning engine handle. -/
structure HookEntry where
  index : Nat
  original : Nat
  handle : HookHandle
deriving DecidableEq, Repr

/-- State of a `c_vtable_hook`: instance address, strategy, and the ordered
entry list `m_hooks`. -/
structure c_vtable_hook where
  m_instance : Nat
  m_mode : hookMode
  m_hooks : List HookEntry
deriving DecidableEq, Repr

/-- `c_vtable_hook(uintptr_t instance, mode m)` constructor. -/
def c_vtable_hook.ofInstance (inst : Nat) (m : hookMode) : c_vtable_hook :=
  { m_instance := inst, m_mode := m, m_hooks := [] }

/-- Memory visible to vtable hooks: each instance address holds a vtable
pointer, and each table address holds a list of function-pointer values. -/
structure Mem where
  vptr : Nat → Nat
  tables : Nat → List Nat

/-- Overwrite the table stored at address `t`. -/
def Mem.setTable (mem : Mem) (t : Nat) (l : List Nat) : Mem :=
  { mem with tables := fun a => if a = t then l else mem.tables a }

/-- Overwrite the vtable pointer of instance `i`. -/
def Mem.setVptr (mem : Mem) (i p : Nat) : Mem :=
  { mem with vptr := fun a => if a = i then p else mem.vptr a }

/-- `c_vtable_hook::apply(uint32_t index, uintptr_t replacement)`.

`vfuncOk table index replacement` is the engine oracle for the in-place
single-slot swap (`VFuncSwapHook::hook()` success); `vtableAlloc inst index
replacement` is the oracle for the whole-table clone (`VTableSwapHook`),
returning the fresh clone address on success.

The source reads `original = (*vt_ptr)[index]` at the full `uint32_t`
index, but hands the engine `static_cast<uint16_t>(index)`: the engine
swap, the engine's own capture (what `VFuncSwapHook::unHook` writes back),
and the clone redirection all happen at the truncated slot
`index % 65536`.  The result is `none` exactly when the unguarded full-index
read falls outside the live table — undefined behavior in the source;
otherwise `some (returned value, new hook state, new memory)`. -/
def c_vtable_hook.apply (vfuncOk : Nat → Nat → Nat → Bool)
    (vtableAlloc : Nat → Nat → Nat → Option Nat) (s : c_vtable_hook)
    (mem : Mem) (index replacement : Nat) :
    Option (Nat × c_vtable_hook × Mem) :=
  if s.m_instance = 0 then some (0, s, mem)
  else
    let vt := mem.vptr s.m_instance
    match (mem.tables vt)[index]? with
    | none => none
    | some original =>
      let idx16 := index % 65536
      match s.m_mode with
      | .vfunc_swap =>
        if vfuncOk vt idx16 replacement then
          some (original,
            { s with m_hooks := s.m_hooks ++
                [⟨index, original,
                  .vfunc vt idx16 ((mem.tables vt).getD idx16 0)⟩] },
            mem.setTable vt ((mem.tables vt).set idx16 replacement))
        else
          some (0, s, mem)
      | .vtable_swap =>
        match vtableAlloc s.m_instance idx16 replacement with
        | none => some (0, s, mem)
        | some c =>
          some (original,
            { s with m_hooks := s.m_hooks ++
                [⟨index, original, .vtable s.m_instance vt⟩] },
            (mem.setTable c ((mem.tables vt).set idx16 replacement)).setVptr
              s.m_instance c)

/-- Undo one recorded entry (`e.vfunc->unHook()` writes the captured value
back into the slot; `e.vtable->unHook()` restores the original vtable
pointer). -/
def unhookEntry (mem : Mem) (e : HookEntry) : Mem :=
  match e.handle with
  | .vfunc t i v => mem.setTable t ((mem.tables t).set i v)
  | .vtable inst p => mem.setVptr inst p

/-- `c_vtable_hook::unhook_all()`: undo every recorded entry in list order
(the source's forward `for` loop), then clear the entry list. -/
def c_vtable_hook.unhook_all (s : c_vtable_hook) (mem : Mem) :
    c_vtable_hook × Mem :=
  ({ s with m_hooks := [] }, s.m_hooks.foldl unhookEntry mem)

/-- The inherited one-argument overload `c_hook::apply(uintptr_t)` that a
`c_vtable_hook` exposes: returns 0, no state change. -/
def c_vtable_hook.applyOne (s : c_vtable_hook) (mem : Mem) (_dest : Nat) :
    Nat × c_vtable_hook × Mem :=
  (0, s, mem)

/-- Does a handle match the strategy: a `vfunc` handle for `vfunc_swap`, a
`vtable` handle for `vtable_swap`? -/
def handleMatches : hookMode → HookHandle → Bool
  | .vfunc_swap, .vfunc _ _ _ => true
  | .vtable_swap, .vtable _ _ => true
  | _, _ => false

/-- The strategy-dependent engine-success condition for one `apply` call
(the engine is consulted at the `uint16_t`-truncated slot, as in the
source). -/
def engineOk (vfuncOk : Nat → Nat → Nat → Bool)
    (vtableAlloc : Nat → Nat → Nat → Option Nat) (s : c_vtable_hook)
    (mem : Mem) (index replacement : Nat) : Prop :=
  match s.m_mode with
  | .vfunc_swap =>
    vfuncOk (mem.vptr s.m_instance) (index % 65536) replacement = true
  | .vtable_swap =>
    (vtableAlloc s.m_instance (index % 65536) replacement).isSome = true

/-- The strategy-dependent engine-failure condition for one `apply` call
(again at the `uint16_t`-truncated slot). -/
def engineFailed (vfuncOk : Nat → Nat → Nat → Bool)
    (vtableAlloc : Nat → Nat → Nat → Option Nat) (s : c_vtable_hook)
    (mem : Mem) (index replacement : Nat) : Prop :=
  match s.m_mode with
  | .vfunc_swap =>
    vfuncOk (mem.vptr s.m_instance) (index % 65536) replacement = false
  | .vtable_swap =>
    vtableAlloc s.m_instance (index % 65536) replacement = none

/-- A single-slot engine oracle that always succeeds. -/
def vfAlways : Nat → Nat → Nat → Bool := fun _ _ _ => true

/-- A single-slot engine oracle that always fails. -/
def vfNever : Nat → Nat → Nat → Bool := fun _ _ _ => false

/-- A whole-table engine oracle that always fails. -/
def vtNever : Nat → Nat → Nat → Option Nat := fun _ _ _ => none

/-- Memory used by concrete vtable witnesses: instance 1 points at table
10, which holds `[100, 101]`; every other table is empty. -/
def memW : Mem :=
  { vptr := fun a => if a = 1 then 10 else 0,
    tables := fun a => if a = 10 then [100, 101] else [] }

/-- A whole-table allocator for concrete runs: clones land at address 20
for slot index 0 and at address 21 otherwise. -/
def vtAllocW : Nat → Nat → Nat → Option Nat :=
  fun _ idx _ => if idx = 0 then some 20 else some 21

/-- First step of the C6 counterexample run: whole-table install at slot 0
of instance 1 with replacement 200. -/
def teardownRun1 : Option (Nat × c_vtable_hook × Mem) :=
  c_vtable_hook.apply vfNever vtAllocW
    (c_vtable_hook.ofInstance 1 .vtable_swap) memW 0 200

/-- Second step: whole-table install at slot 1 with replacement 201. -/
def teardownRun2 : Option (Nat × c_vtable_hook × Mem) :=
  teardownRun1.bind
    (fun r => c_vtable_hook.apply vfNever vtAllocW r.2.1 r.2.2 1 201)

/-- Final step: `unhook_all` after the two installs. -/
def teardownRunEnd : Option (c_vtable_hook × Mem) :=
  teardownRun2.map (fun r => c_vtable_hook.unhook_all r.2.1 r.2.2)

/-- Memory for the index-wraparound run: instance 1 points at table 10,
which is large enough (65538 slots, all holding 7) that slot 65537 is a
valid read while `static_cast<uint16_t>(65537)` is slot 1. -/
def memBig : Mem :=
  { vptr := fun a => if a = 1 then 10 else 0,
    tables := fun a => if a = 10 then List.replicate 65538 7 else [] }

/-- Hook state after the first wraparound install: one entry whose full
index is 65537 but whose engine handle acts on slot 1. -/
def wrapS1 : c_vtable_hook :=
  ⟨1, .vfunc_swap, [⟨65537, 7, .vfunc 10 1 7⟩]⟩

/-- Memory after the first wraparound install: slot 1 (not 65537) now
holds 200. -/
def wrapM1 : Mem :=
  memBig.setTable 10 ((memBig.tables 10).set 1 200)

/-- Hook state after the second wraparound install: the second entry again
records full index 65537 and original 7, while its engine handle captured
200 at slot 1. -/
def wrapS2 : c_vtable_hook :=
  ⟨1, .vfunc_swap, [⟨65537, 7, .vfunc 10 1 7⟩, ⟨65537, 7, .vfunc 10 1 200⟩]⟩

/-- Memory after the second wraparound install: slot 1 now holds 300. -/
def wrapM2 : Mem :=
  wrapM1.setTable 10 (((memBig.tables 10).set 1 200).set 1 300)

/-- The entries recorded by successive single-slot installs over original
table contents `tbl` at table address `t`: one entry per requested
`(index, replacement)` pair, capturing the original value at that index. -/
def entriesOf (tbl : List Nat) (t : Nat) (ps : List (Nat × Nat)) :
    List HookEntry :=
  ps.map (fun p => ⟨p.1, tbl.getD p.1 0, .vfunc t p.1 (tbl.getD p.1 0)⟩)

/-- Run `apply` over a list of `(index, replacement)` requests, threading
hook state and memory; `none` as soon as one call hits undefined
behavior. -/
def installAll (vfuncOk : Nat → Nat → Nat → Bool)
    (vtableAlloc : Nat → Nat → Nat → Option Nat) :
    c_vtable_hook → Mem → List (Nat × Nat) → Option (c_vtable_hook × Mem)
  | s, mem, [] => some (s, mem)
  | s, mem, p :: ps =>
    match c_vtable_hook.apply vfuncOk vtableAlloc s mem p.1 p.2 with
    | none => none
    | some (_, s', mem') => installAll vfuncOk vtableAlloc s' mem' ps

/-- `setTable` does not change any vtable pointer. -/
theorem vptr_setTable (mem : Mem) (t : Nat) (l : List Nat) :
    (mem.setTable t l).vptr = mem.vptr := rfl

/-- `setTable` overwrites the table at the written address. -/
theorem tables_setTable_self (mem : Mem) (t : Nat) (l : List Nat) :
    (mem.setTable t l).tables t = l := by
  simp [Mem.setTable]

/-- An in-bounds `getElem?` read is `some` of the `getD` default read. -/
theorem getElem?_eq_some_getD {l : List Nat} {n : Nat} (h : n < l.length) :
    l[n]? = some (l.getD n 0) := by
  rw [List.getElem?_eq_getElem h, List.getD_eq_getElem?_getD,
    List.getElem?_eq_getElem h]
  rfl

/-- C1: Detour install is idempotent.  (a) On any detour holding a patch
session, `apply` returns the stored trampoline, changes no state, and issues
no engine call.  (b) After a first successful install (no session held,
nonzero source and destination, engine succeeds with trampoline `t`), the
first call returns `t` with exactly one engine call, and a second call with
the same destination returns the same `t`, changes no state, and issues no
further engine call — one underlying patch in total. -/
theorem detour_apply_idempotent (engine : Nat → Nat → Option Nat) :
    (∀ (s : c_detour) (d : Nat), s.m_detour = true →
      c_detour.apply engine s d = (s.m_trampoline, s, 0)) ∧
    (∀ (s : c_detour) (dest t : Nat), s.m_detour = false →
      s.m_src ≠ 0 → dest ≠ 0 → engine s.m_src dest = some t →
      (c_detour.apply engine s dest).1 = t ∧
      (c_detour.apply engine s dest).2.2 = 1 ∧
      c_detour.apply engine (c_detour.apply engine s dest).2.1 dest =
        (t, (c_detour.apply engine s dest).2.1, 0)) := by
  constructor
  · intro s d h
    simp [c_detour.apply, h]
  · intro s dest t h0 h1 h2 he
    simp [c_detour.apply, h0, h1, h2, he]

/-- C1 witness: concrete run of the idempotence theorem with source 7,
destination 3, engine returning trampoline 5. -/
theorem detour_apply_idempotent_witness :
    (c_detour.apply engineConst5 (c_detour.ofSrc 7) 3).1 = 5 ∧
    (c_detour.apply engineConst5 (c_detour.ofSrc 7) 3).2.2 = 1 ∧
    c_detour.apply engineConst5
        (c_detour.apply engineConst5 (c_detour.ofSrc 7) 3).2.1 3 =
      (5, (c_detour.apply engineConst5 (c_detour.ofSrc 7) 3).2.1, 0) :=
  (detour_apply_idempotent engineConst5).2 (c_detour.ofSrc 7) 3 5
    rfl (by decide) (by decide) rfl

/-- C2 counterexample: the claim says calling `apply` with destination 0
always returns 0, but on an installed detour the initial
`if (m_detour) return m_trampoline;` guard fires first: after a successful
install (trampoline 5), `apply 0` returns 5, not 0. -/
theorem detour_null_dest_cex :
    (c_detour.apply engineConst5
      (c_detour.apply engineConst5 (c_detour.ofSrc 7) 3).2.1 0).1 = 5 ∧
    (5 : Nat) ≠ 0 := by
  decide

/-- C2 (amended): null-safety holds before any install.  (a) On a detour
constructed with source 0, `apply` always returns 0, leaves the trampoline
at 0 and the state unchanged (hence every later call behaves the same).
(b) On any detour not currently holding a session, `apply` with destination
0 returns 0 and changes no state.  (c) `unhook` on the source-0 fresh state
is also a no-op. -/
theorem detour_null_safety (engine : Nat → Nat → Option Nat) :
    (∀ d : Nat, c_detour.apply engine (c_detour.ofSrc 0) d =
      (0, c_detour.ofSrc 0, 0)) ∧
    (∀ s : c_detour, s.m_detour = false →
      c_detour.apply engine s 0 = (0, s, 0)) ∧
    c_detour.unhook (c_detour.ofSrc 0) = c_detour.ofSrc 0 := by
  refine ⟨?_, ?_, ?_⟩
  · intro d
    simp [c_detour.apply, c_detour.ofSrc]
  · intro s h
    simp [c_detour.apply, h]
  · rfl

/-- C2 witness: the amended null-safety at destination 9 and at a concrete
uninstalled state with source 7. -/
theorem detour_null_safety_witness :
    c_detour.apply engineConst5 (c_detour.ofSrc 0) 9 =
      (0, c_detour.ofSrc 0, 0) ∧
    c_detour.apply engineConst5 (c_detour.ofSrc 7) 0 =
      (0, c_detour.ofSrc 7, 0) :=
  ⟨(detour_null_safety engineConst5).1 9,
   (detour_null_safety engineConst5).2.1 (c_detour.ofSrc 7) rfl⟩

/-- C3: engine-failure atomicity.  With no session held, trampoline 0,
nonzero source and destination, and a failing engine, `apply` returns 0 and
the state is exactly the state before the call (session released,
trampoline 0); the single engine attempt committed nothing further. -/
theorem detour_engine_failure_atomic (engine : Nat → Nat → Option Nat)
    (s : c_detour) (dest : Nat) (h0 : s.m_detour = false)
    (ht : s.m_trampoline = 0) (h1 : s.m_src ≠ 0) (h2 : dest ≠ 0)
    (he : engine s.m_src dest = none) :
    c_detour.apply engine s dest = (0, s, 1) := by
  cases s with
  | mk src tr det =>
    simp_all [c_detour.apply]

/-- C3 witness: concrete failing-engine run from source 7, destination 3. -/
theorem detour_engine_failure_atomic_witness :
    c_detour.apply engineFail (c_detour.ofSrc 7) 3 =
      (0, c_detour.ofSrc 7, 1) :=
  detour_engine_failure_atomic engineFail (c_detour.ofSrc 7) 3
    rfl rfl (by decide) (by decide) rfl

/-- C8: the installed-state invariant `trampoline ≠ 0 ↔ session present`
holds at construction and is preserved by `apply` (success, failure and
guarded paths alike) and by `unhook`, for any engine whose successful
trampolines are nonzero (the engine contract: a trampoline is a usable
address). -/
theorem detour_invariant_preserved (engine : Nat → Nat → Option Nat)
    (he : ∀ a b t, engine a b = some t → t ≠ 0) :
    (∀ src : Nat, detourInv (c_detour.ofSrc src)) ∧
    (∀ (s : c_detour) (d : Nat), detourInv s →
      detourInv (c_detour.apply engine s d).2.1) ∧
    (∀ s : c_detour, detourInv s → detourInv (c_detour.unhook s)) := by
  refine ⟨?_, ?_, ?_⟩
  · intro src
    simp [detourInv, c_detour.ofSrc]
  · intro s d hs
    unfold c_detour.apply
    by_cases hdet : s.m_detour
    · simpa [hdet]
    · simp only [hdet, Bool.false_eq_true, if_false]
      by_cases hz : s.m_src = 0 ∨ d = 0
      · simpa [hz]
      · simp only [hz, if_false]
        cases hcall : engine s.m_src d with
        | none => simp [detourInv]
        | some t => simp [detourInv, he _ _ _ hcall]
  · intro s hs
    unfold c_detour.unhook
    by_cases hdet : s.m_detour
    · simp [hdet, detourInv]
    · simpa [hdet]

/-- C8 witness: concrete preservation run — the invariant holds after
installing from the fresh source-7 state with the constant engine. -/
theorem detour_invariant_preserved_witness :
    detourInv (c_detour.apply engineConst5 (c_detour.ofSrc 7) 3).2.1 := by
  have he : ∀ a b t, engineConst5 a b = some t → t ≠ 0 := by
    intro a b t h
    simp [engineConst5] at h
    omega
  exact (detour_invariant_preserved engineConst5 he).2.1 (c_detour.ofSrc 7) 3
    ((detour_invariant_preserved engineConst5 he).1 7)

/-- C7: inapplicable overloads are harmless no-ops.  The two-argument
`apply` on a `c_detour` and the one-argument `apply` a `c_vtable_hook`
inherits from `c_hook` both return 0 and change no state. -/
theorem inapplicable_overload_noop :
    (∀ (s : c_detour) (i d : Nat), c_detour.applyAt s i d = (0, s)) ∧
    (∀ (s : c_vtable_hook) (mem : Mem) (d : Nat),
      c_vtable_hook.applyOne s mem d = (0, s, mem)) :=
  ⟨fun _ _ _ => rfl, fun _ _ _ => rfl⟩

/-- C10: the slot index is never validated.  Once the instance address is
nonzero, `apply` reads the live table at `index` unconditionally, so the
embedding gets stuck (`none`, the undefined-behavior marker) exactly when
the index is outside the live table; under the unstated precondition
`index < length` the call is always well-defined. -/
theorem vtable_apply_unguarded_index (vfuncOk : Nat → Nat → Nat → Bool)
    (vtableAlloc : Nat → Nat → Nat → Option Nat) (s : c_vtable_hook)
    (mem : Mem) (index replacement : Nat) :
    c_vtable_hook.apply vfuncOk vtableAlloc s mem index replacement = none ↔
      (s.m_instance ≠ 0 ∧
        (mem.tables (mem.vptr s.m_instance)).length ≤ index) := by
  unfold c_vtable_hook.apply
  by_cases hz : s.m_instance = 0
  · simp [hz]
  · simp only [hz, if_false, ne_eq, not_false_eq_true, true_and]
    cases hread : (mem.tables (mem.vptr s.m_instance))[index]? with
    | none =>
      simpa using List.getElem?_eq_none_iff.mp hread
    | some original =>
      have hlt : index < (mem.tables (mem.vptr s.m_instance)).length := by
        by_contra hge
        rw [List.getElem?_eq_none_iff.mpr (Nat.le_of_not_lt hge)] at hread
        exact Option.noConfusion hread
      cases hm : s.m_mode with
      | vfunc_swap =>
        by_cases hok : vfuncOk (mem.vptr s.m_instance) (index % 65536)
            replacement
        · simp [hok, Nat.not_le.mpr hlt]
        · simp [hok, Nat.not_le.mpr hlt]
      | vtable_swap =>
        cases ha : vtableAlloc s.m_instance (index % 65536) replacement with
        | none => simp [ha, Nat.not_le.mpr hlt]
        | some c => simp [ha, Nat.not_le.mpr hlt]

/-- C4: vtable install success.  With a nonzero instance, the live table
read through the instance yielding `original` at `index`, and the
strategy's engine call succeeding, `apply` returns `original` (whichever
strategy is in use) and appends exactly one entry
`{index, original, strategy-matching handle}` to the entry list. -/
theorem vtable_apply_success (vfuncOk : Nat → Nat → Nat → Bool)
    (vtableAlloc : Nat → Nat → Nat → Option Nat) (s : c_vtable_hook)
    (mem : Mem) (index replacement original : Nat)
    (hz : s.m_instance ≠ 0)
    (hread : (mem.tables (mem.vptr s.m_instance))[index]? = some original)
    (hok : engineOk vfuncOk vtableAlloc s mem index replacement) :
    ∃ (s' : c_vtable_hook) (mem' : Mem) (h : HookHandle),
      c_vtable_hook.apply vfuncOk vtableAlloc s mem index replacement =
        some (original, s', mem') ∧
      s'.m_hooks = s.m_hooks ++ [⟨index, original, h⟩] ∧
      handleMatches s.m_mode h = true ∧
      s'.m_instance = s.m_instance ∧ s'.m_mode = s.m_mode := by
  unfold engineOk at hok
  cases hm : s.m_mode with
  | vfunc_swap =>
    rw [hm] at hok
    refine ⟨{ s with m_hooks := s.m_hooks ++
        [⟨index, original, .vfunc (mem.vptr s.m_instance) (index % 65536)
          ((mem.tables (mem.vptr s.m_instance)).getD (index % 65536) 0)⟩] },
      mem.setTable (mem.vptr s.m_instance)
        ((mem.tables (mem.vptr s.m_instance)).set (index % 65536)
          replacement),
      .vfunc (mem.vptr s.m_instance) (index % 65536)
        ((mem.tables (mem.vptr s.m_instance)).getD (index % 65536) 0),
      ?_, rfl, rfl, rfl, hm⟩
    unfold c_vtable_hook.apply
    simp [hz, hread, hm, hok]
  | vtable_swap =>
    rw [hm] at hok
    obtain ⟨c, hc⟩ := Option.isSome_iff_exists.mp hok
    refine ⟨{ s with m_hooks := s.m_hooks ++
        [⟨index, original, .vtable s.m_instance (mem.vptr s.m_instance)⟩] },
      (mem.setTable c
        ((mem.tables (mem.vptr s.m_instance)).set (index % 65536)
          replacement)).setVptr s.m_instance c,
      .vtable s.m_instance (mem.vptr s.m_instance), ?_, rfl, rfl, rfl, hm⟩
    unfold c_vtable_hook.apply
    simp [hz, hread, hm, hc]

/-- C4 witness: concrete single-slot install at index 1 on instance 1
returns the live value 101 and appends one matching entry. -/
theorem vtable_apply_success_witness :
    ∃ (s' : c_vtable_hook) (mem' : Mem) (h : HookHandle),
      c_vtable_hook.apply vfAlways vtNever
          (c_vtable_hook.ofInstance 1 .vfunc_swap) memW 1 200 =
        some (101, s', mem') ∧
      s'.m_hooks = (c_vtable_hook.ofInstance 1 .vfunc_swap).m_hooks ++
        [⟨1, 101, h⟩] ∧
      handleMatches (c_vtable_hook.ofInstance 1 .vfunc_swap).m_mode h =
        true ∧
      s'.m_instance = (c_vtable_hook.ofInstance 1 .vfunc_swap).m_instance ∧
      s'.m_mode = (c_vtable_hook.ofInstance 1 .vfunc_swap).m_mode :=
  vtable_apply_success vfAlways vtNever
    (c_vtable_hook.ofInstance 1 .vfunc_swap) memW 1 200 101
    (by decide) (by simp [memW, c_vtable_hook.ofInstance]) rfl

/-- C5: vtable install failure.  `apply` returns 0 and records no entry —
hook state and memory are returned unchanged — both (a) when the instance
address is 0 and (b) when the strategy's engine call fails (for either
strategy, with the live-table read in bounds). -/
theorem vtable_apply_failure (vfuncOk : Nat → Nat → Nat → Bool)
    (vtableAlloc : Nat → Nat → Nat → Option Nat) (s : c_vtable_hook)
    (mem : Mem) (index replacement : Nat) :
    (s.m_instance = 0 →
      c_vtable_hook.apply vfuncOk vtableAlloc s mem index replacement =
        some (0, s, mem)) ∧
    (∀ original : Nat, s.m_instance ≠ 0 →
      (mem.tables (mem.vptr s.m_instance))[index]? = some original →
      engineFailed vfuncOk vtableAlloc s mem index replacement →
      c_vtable_hook.apply vfuncOk vtableAlloc s mem index replacement =
        some (0, s, mem)) := by
  constructor
  · intro hz
    simp [c_vtable_hook.apply, hz]
  · intro original hz hread hfail
    unfold c_vtable_hook.apply
    unfold engineFailed at hfail
    cases hm : s.m_mode with
    | vfunc_swap =>
      rw [hm] at hfail
      simp [hz, hread, hfail]
    | vtable_swap =>
      rw [hm] at hfail
      simp [hz, hread, hfail]

/-- C5 witness: failure at instance 0, and engine failure on instance 1 at
index 0, both return 0 with state and memory unchanged. -/
theorem vtable_apply_failure_witness :
    c_vtable_hook.apply vfNever vtNever
        (c_vtable_hook.ofInstance 0 .vfunc_swap) memW 0 200 =
      some (0, c_vtable_hook.ofInstance 0 .vfunc_swap, memW) ∧
    c_vtable_hook.apply vfNever vtNever
        (c_vtable_hook.ofInstance 1 .vfunc_swap) memW 0 200 =
      some (0, c_vtable_hook.ofInstance 1 .vfunc_swap, memW) :=
  ⟨(vtable_apply_failure vfNever vtNever
      (c_vtable_hook.ofInstance 0 .vfunc_swap) memW 0 200).1 rfl,
   (vtable_apply_failure vfNever vtNever
      (c_vtable_hook.ofInstance 1 .vfunc_swap) memW 0 200).2 100
    (by decide) (by simp [memW, c_vtable_hook.ofInstance]) rfl⟩

/-- C9 counterexample: the claim fails at indices past the `uint16_t`
truncation.  Installing index 65537 twice on a 65538-slot table (all slots
holding 7): the engine swaps slot `65537 % 65536 = 1` while the original is
captured at slot 65537, so the second install returns the untouched
original 7 — not the first replacement 200 — and after `unhook_all` slot
65537 still reads 7, exactly the value the table held before any install
(which the claim says it must not be). -/
theorem vtable_wraparound_cex :
    c_vtable_hook.apply vfAlways vtNever
        (c_vtable_hook.ofInstance 1 .vfunc_swap) memBig 65537 200 =
      some (7, wrapS1, wrapM1) ∧
    c_vtable_hook.apply vfAlways vtNever wrapS1 wrapM1 65537 300 =
      some (7, wrapS2, wrapM2) ∧
    ((c_vtable_hook.unhook_all wrapS2 wrapM2).2.tables
        ((c_vtable_hook.unhook_all wrapS2 wrapM2).2.vptr 1))[65537]? =
      some 7 ∧
    (c_vtable_hook.unhook_all wrapS2 wrapM2).1.m_hooks = [] ∧
    (7 : Nat) ≠ 200 := by
  have hv : memBig.vptr 1 = 10 := rfl
  have htab : memBig.tables 10 = List.replicate 65538 7 := rfl
  have hlen1 : 1 < (memBig.tables 10).length := by
    rw [htab, List.length_replicate]
    norm_num
  have hr1 : (memBig.tables 10)[65537]? = some 7 := by
    rw [htab]
    exact List.getElem?_replicate_of_lt (by norm_num)
  have hg1 : (memBig.tables 10)[1]? = some 7 := by
    rw [htab]
    exact List.getElem?_replicate_of_lt (by norm_num)
  have hv2 : wrapM1.vptr 1 = 10 := hv
  have htab2 : wrapM1.tables 10 = (memBig.tables 10).set 1 200 :=
    tables_setTable_self _ _ _
  have hr2 : ((memBig.tables 10).set 1 200)[65537]? = some 7 := by
    rw [List.getElem?_set_ne (by norm_num : (1 : Nat) ≠ 65537), hr1]
  have hg2 : ((memBig.tables 10).set 1 200)[1]? = some 200 :=
    List.getElem?_set_self hlen1
  have htab3 : wrapM2.tables 10 =
      ((memBig.tables 10).set 1 200).set 1 300 :=
    tables_setTable_self _ _ _
  refine ⟨?_, ?_, ?_, rfl, by norm_num⟩
  · unfold c_vtable_hook.apply
    simp [c_vtable_hook.ofInstance, wrapS1, wrapM1, hv, hr1, hg1, vfAlways]
  · unfold c_vtable_hook.apply
    simp [wrapS1, wrapS2, wrapM2, hv2, htab2, hr2, hg2, vfAlways]
  · have hEnd : c_vtable_hook.unhook_all wrapS2 wrapM2 =
        (⟨1, .vfunc_swap, []⟩,
          unhookEntry (unhookEntry wrapM2 ⟨65537, 7, .vfunc 10 1 7⟩)
            ⟨65537, 7, .vfunc 10 1 200⟩) := rfl
    rw [hEnd]
    have hvpF : (unhookEntry (unhookEntry wrapM2 ⟨65537, 7, .vfunc 10 1 7⟩)
        ⟨65537, 7, .vfunc 10 1 200⟩).vptr 1 = 10 := hv
    rw [hvpF]
    have htabF : (unhookEntry (unhookEntry wrapM2 ⟨65537, 7, .vfunc 10 1 7⟩)
        ⟨65537, 7, .vfunc 10 1 200⟩).tables 10 =
        (memBig.tables 10).set 1 200 := by
      simp [unhookEntry, tables_setTable_self, htab3]
    rw [htabF, List.getElem?_set_ne (by norm_num : (1 : Nat) ≠ 65537), hr1]

/-- C9 (amended): `unhook_all` undoes entries in installation order (the
forward `for` loop), so installing the same index twice in single-slot mode
and then unhooking leaves the slot at the value captured by the second
entry's engine handle — the first replacement `r1` — not the pre-install
value.  This holds for indices below the `uint16_t` truncation bound
65536, where the slot the engine swaps is the slot that was read; at
`index ≥ 65536` the engine acts on `index % 65536` instead and the second
install returns the untouched full-index original, not `r1`.  With nonzero
instance, `i < 65536`, a live-table read of `orig` at `i`, and an
always-succeeding single-slot engine: the first install returns `orig`,
the second returns `r1`, and after `unhook_all` the live slot reads `r1`
(hence not `orig` whenever `r1 ≠ orig`), with the entry list cleared. -/
theorem vtable_unhook_all_install_order
    (vtableAlloc : Nat → Nat → Nat → Option Nat) (mem : Mem)
    (inst i r1 r2 orig : Nat) (hz : inst ≠ 0) (hsmall : i < 65536)
    (hread : (mem.tables (mem.vptr inst))[i]? = some orig) :
    ∃ (s1 s2 : c_vtable_hook) (m1 m2 : Mem),
      c_vtable_hook.apply vfAlways vtableAlloc
          (c_vtable_hook.ofInstance inst .vfunc_swap) mem i r1 =
        some (orig, s1, m1) ∧
      c_vtable_hook.apply vfAlways vtableAlloc s1 m1 i r2 =
        some (r1, s2, m2) ∧
      ((c_vtable_hook.unhook_all s2 m2).2.tables
          ((c_vtable_hook.unhook_all s2 m2).2.vptr inst))[i]? = some r1 ∧
      (c_vtable_hook.unhook_all s2 m2).1.m_hooks = [] ∧
      (r1 ≠ orig →
        ((c_vtable_hook.unhook_all s2 m2).2.tables
          ((c_vtable_hook.unhook_all s2 m2).2.vptr inst))[i]? ≠ some orig) := by
  have hlt : i < (mem.tables (mem.vptr inst)).length := by
    by_contra hge
    rw [List.getElem?_eq_none (Nat.le_of_not_lt hge)] at hread
    exact Option.noConfusion hread
  have hmod : i % 65536 = i := Nat.mod_eq_of_lt hsmall
  have hgd : (mem.tables (mem.vptr inst)).getD i 0 = orig := by
    rw [List.getD_eq_getElem?_getD, hread]
    rfl
  refine ⟨⟨inst, .vfunc_swap,
      [⟨i, orig, .vfunc (mem.vptr inst) i orig⟩]⟩,
    ⟨inst, .vfunc_swap,
      [⟨i, orig, .vfunc (mem.vptr inst) i orig⟩,
       ⟨i, r1, .vfunc (mem.vptr inst) i r1⟩]⟩,
    mem.setTable (mem.vptr inst)
      ((mem.tables (mem.vptr inst)).set i r1),
    (mem.setTable (mem.vptr inst)
        ((mem.tables (mem.vptr inst)).set i r1)).setTable (mem.vptr inst)
      (((mem.tables (mem.vptr inst)).set i r1).set i r2),
    ?_, ?_, ?_, rfl, ?_⟩
  · unfold c_vtable_hook.apply
    simp [c_vtable_hook.ofInstance, hz, hread, vfAlways, hmod, hgd]
  · unfold c_vtable_hook.apply
    simp [Mem.setTable, hz, vfAlways, hlt, hmod]
  · unfold c_vtable_hook.unhook_all
    simp [unhookEntry, Mem.setTable, hlt, List.foldl]
  · intro hne
    unfold c_vtable_hook.unhook_all
    simp [unhookEntry, Mem.setTable, hlt, List.foldl, hne]

/-- C9 witness: concrete duplicate-index run on instance 1, slot 0 of table
`[100, 101]`, replacements 200 then 300. -/
theorem vtable_unhook_all_install_order_witness :
    ∃ (s1 s2 : c_vtable_hook) (m1 m2 : Mem),
      c_vtable_hook.apply vfAlways vtNever
          (c_vtable_hook.ofInstance 1 .vfunc_swap) memW 0 200 =
        some (100, s1, m1) ∧
      c_vtable_hook.apply vfAlways vtNever s1 m1 0 300 =
        some (200, s2, m2) ∧
      ((c_vtable_hook.unhook_all s2 m2).2.tables
          ((c_vtable_hook.unhook_all s2 m2).2.vptr 1))[0]? = some 200 ∧
      (c_vtable_hook.unhook_all s2 m2).1.m_hooks = [] ∧
      ((200 : Nat) ≠ 100 →
        ((c_vtable_hook.unhook_all s2 m2).2.tables
          ((c_vtable_hook.unhook_all s2 m2).2.vptr 1))[0]? ≠ some 100) :=
  vtable_unhook_all_install_order vtNever memW 1 0 200 300 100
    (by decide) (by decide) (by simp [memW])

/-- C6 counterexample: with the whole-table strategy and two successful
installs (slots 0 and 1 of table `[100, 101]`, captured originals 100 and
101), `unhook_all` undoes the entries in forward installation order, so the
last restore repoints the instance to the *first clone*: slot 0 of the live
table then reads 200 (the first replacement), not its originally captured
value 100 — the claim's "restores the original dispatch state" fails. -/
theorem vtable_bulk_teardown_cex :
    teardownRun1.map (fun r => r.1) = some 100 ∧
    teardownRun2.map (fun r => r.1) = some 101 ∧
    teardownRunEnd.map (fun p => p.1.m_hooks) = some [] ∧
    teardownRunEnd.map (fun p => (p.2.tables (p.2.vptr 1))[0]?) =
      some (some 200) ∧
    (200 : Nat) ≠ 100 := by
  decide

/-- Running `installAll` in single-slot mode with an always-succeeding
engine, over in-bounds pairwise-distinct indices, succeeds and appends
exactly the entries capturing the original table values; the vtable
pointers and the live table's length are unchanged. -/
theorem installAll_vfunc_spec (vtableAlloc : Nat → Nat → Nat → Option Nat)
    (inst tAddr : Nat) (tbl0 : List Nat) (hz : inst ≠ 0) :
    ∀ (ps : List (Nat × Nat)) (hooks : List HookEntry) (mem : Mem),
      mem.vptr inst = tAddr →
      (mem.tables tAddr).length = tbl0.length →
      (∀ p ∈ ps, p.1 < tbl0.length) →
      (∀ p ∈ ps, p.1 < 65536) →
      (ps.map Prod.fst).Nodup →
      (∀ p ∈ ps, (mem.tables tAddr)[p.1]? = tbl0[p.1]?) →
      ∃ mem' : Mem,
        installAll vfAlways vtableAlloc ⟨inst, .vfunc_swap, hooks⟩ mem ps =
          some (⟨inst, .vfunc_swap, hooks ++ entriesOf tbl0 tAddr ps⟩,
            mem') ∧
        mem'.vptr = mem.vptr ∧
        (mem'.tables tAddr).length = tbl0.length := by
  intro ps
  induction ps with
  | nil =>
    intro hooks mem _ hlen _ _ _ _
    exact ⟨mem, by simp [installAll, entriesOf], rfl, hlen⟩
  | cons p ps ih =>
    intro hooks mem hT hlen hbound hsmall hnodup hcap
    have hbi : p.1 < tbl0.length := hbound p (List.mem_cons_self p ps)
    have hm16 : p.1 % 65536 = p.1 :=
      Nat.mod_eq_of_lt (hsmall p (List.mem_cons_self p ps))
    have hreadm : (mem.tables tAddr)[p.1]? = some (tbl0.getD p.1 0) := by
      rw [hcap p (List.mem_cons_self p ps)]
      exact getElem?_eq_some_getD hbi
    have hgd : (mem.tables tAddr).getD p.1 0 = tbl0.getD p.1 0 := by
      rw [List.getD_eq_getElem?_getD, hreadm]
      rfl
    have hnodup2 : (p.1 :: ps.map Prod.fst).Nodup := by
      simpa only [List.map_cons] using hnodup
    have hnd := List.nodup_cons.mp hnodup2
    have happly : c_vtable_hook.apply vfAlways vtableAlloc
        ⟨inst, .vfunc_swap, hooks⟩ mem p.1 p.2 =
        some (tbl0.getD p.1 0,
          ⟨inst, .vfunc_swap, hooks ++
            [⟨p.1, tbl0.getD p.1 0, .vfunc tAddr p.1 (tbl0.getD p.1 0)⟩]⟩,
          mem.setTable tAddr ((mem.tables tAddr).set p.1 p.2)) := by
      unfold c_vtable_hook.apply
      simp [hz, hT, hreadm, vfAlways, hm16, hgd]
    obtain ⟨mem', hrun, hvp, hlen'⟩ := ih
      (hooks ++ [⟨p.1, tbl0.getD p.1 0, .vfunc tAddr p.1 (tbl0.getD p.1 0)⟩])
      (mem.setTable tAddr ((mem.tables tAddr).set p.1 p.2))
      (by rw [vptr_setTable]; exact hT)
      (by rw [tables_setTable_self]; simp [hlen])
      (fun q hq => hbound q (List.mem_cons_of_mem p hq))
      (fun q hq => hsmall q (List.mem_cons_of_mem p hq))
      hnd.2
      (fun q hq => by
        rw [tables_setTable_self, List.getElem?_set_ne]
        · exact hcap q (List.mem_cons_of_mem p hq)
        · intro heq
          apply hnd.1
          rw [heq]
          exact List.mem_map_of_mem Prod.fst hq)
    have hlist : (hooks ++
        [⟨p.1, tbl0.getD p.1 0, .vfunc tAddr p.1 (tbl0.getD p.1 0)⟩]) ++
          entriesOf tbl0 tAddr ps =
        hooks ++ entriesOf tbl0 tAddr (p :: ps) := by
      simp [entriesOf]
    refine ⟨mem', ?_, hvp, hlen'⟩
    unfold installAll
    rw [happly]
    exact hrun.trans (by rw [hlist])

/-- Folding `unhookEntry` over single-slot entries whose indices all avoid
slot `j` leaves the live read at `j`, every vtable pointer, and the table's
length unchanged. -/
theorem unhookAll_vfunc_preserve (tAddr j : Nat) (tbl0 : List Nat) :
    ∀ (ps : List (Nat × Nat)) (mem : Mem),
      (∀ p ∈ ps, p.1 ≠ j) →
      ((List.foldl unhookEntry mem (entriesOf tbl0 tAddr ps)).tables
          tAddr)[j]? = (mem.tables tAddr)[j]? ∧
      (List.foldl unhookEntry mem (entriesOf tbl0 tAddr ps)).vptr =
        mem.vptr ∧
      ((List.foldl unhookEntry mem (entriesOf tbl0 tAddr ps)).tables
          tAddr).length = (mem.tables tAddr).length := by
  intro ps
  induction ps with
  | nil => intro mem _; exact ⟨rfl, rfl, rfl⟩
  | cons p ps ih =>
    intro mem hne
    have hstep : List.foldl unhookEntry mem (entriesOf tbl0 tAddr (p :: ps)) =
        List.foldl unhookEntry
          (mem.setTable tAddr
            ((mem.tables tAddr).set p.1 (tbl0.getD p.1 0)))
          (entriesOf tbl0 tAddr ps) := by
      simp [entriesOf, unhookEntry]
    obtain ⟨hj, hv, hl⟩ := ih
      (mem.setTable tAddr ((mem.tables tAddr).set p.1 (tbl0.getD p.1 0)))
      (fun q hq => hne q (List.mem_cons_of_mem p hq))
    refine ⟨?_, ?_, ?_⟩
    · rw [hstep, hj, tables_setTable_self,
        List.getElem?_set_ne (hne p (List.mem_cons_self p ps))]
    · rw [hstep, hv, vptr_setTable]
    · rw [hstep, hl, tables_setTable_self]
      simp

/-- Folding `unhookEntry` over the entries captured from `tbl0` (in-bounds,
pairwise-distinct indices) restores every written slot to its captured
value and leaves every vtable pointer unchanged. -/
theorem unhookAll_vfunc_restore (tAddr : Nat) (tbl0 : List Nat) :
    ∀ (ps : List (Nat × Nat)) (mem : Mem),
      (mem.tables tAddr).length = tbl0.length →
      (∀ p ∈ ps, p.1 < tbl0.length) →
      (ps.map Prod.fst).Nodup →
      (List.foldl unhookEntry mem (entriesOf tbl0 tAddr ps)).vptr =
        mem.vptr ∧
      ∀ p ∈ ps,
        ((List.foldl unhookEntry mem (entriesOf tbl0 tAddr ps)).tables
            tAddr)[p.1]? = tbl0[p.1]? := by
  intro ps
  induction ps with
  | nil => intro mem _ _ _; exact ⟨rfl, fun p hp => absurd hp (by simp)⟩
  | cons p ps ih =>
    intro mem hlen hbound hnodup
    have hbi : p.1 < tbl0.length := hbound p (List.mem_cons_self p ps)
    have hnodup2 : (p.1 :: ps.map Prod.fst).Nodup := by
      simpa only [List.map_cons] using hnodup
    have hnd := List.nodup_cons.mp hnodup2
    have hstep : List.foldl unhookEntry mem (entriesOf tbl0 tAddr (p :: ps)) =
        List.foldl unhookEntry
          (mem.setTable tAddr
            ((mem.tables tAddr).set p.1 (tbl0.getD p.1 0)))
          (entriesOf tbl0 tAddr ps) := by
      simp [entriesOf, unhookEntry]
    have hne : ∀ q ∈ ps, q.1 ≠ p.1 := by
      intro q hq heq
      apply hnd.1
      rw [← heq]
      exact List.mem_map_of_mem Prod.fst hq
    obtain ⟨hv, hrest⟩ := ih
      (mem.setTable tAddr ((mem.tables tAddr).set p.1 (tbl0.getD p.1 0)))
      (by rw [tables_setTable_self]; simp [hlen])
      (fun q hq => hbound q (List.mem_cons_of_mem p hq))
      hnd.2
    refine ⟨by rw [hstep, hv, vptr_setTable], ?_⟩
    intro q hq
    rcases List.mem_cons.mp hq with hq1 | hq2
    · subst hq1
      obtain ⟨hj, _, _⟩ := unhookAll_vfunc_preserve tAddr q.1 tbl0 ps
        (mem.setTable tAddr ((mem.tables tAddr).set q.1 (tbl0.getD q.1 0)))
        hne
      rw [hstep, hj, tables_setTable_self,
        List.getElem?_set_self (by rw [hlen]; exact hbi)]
      exact (getElem?_eq_some_getD hbi).symm
    · rw [hstep]
      exact hrest q hq2

/-- C6 (amended): `unhook_all` undoes entries in installation order, which
restores the original dispatch state for the single-slot-swap strategy when
the installed indices are pairwise distinct and below the `uint16_t`
truncation bound 65536 (duplicate indices, indices colliding modulo 65536,
and stacked whole-table clones are not restored — the spec itself leaves
duplicates to the caller).  (a) `unhook_all` with no entries is a no-op.
(b) After N successful single-slot installs at in-bounds
pairwise-distinct indices below 65536 followed by `unhook_all`, every
previously redirected index reads back its originally captured value
through the live table, and the entry collection is empty. -/
theorem vtable_bulk_teardown_amended
    (vtableAlloc : Nat → Nat → Nat → Option Nat) (inst : Nat) (mem : Mem)
    (ps : List (Nat × Nat)) (hz : inst ≠ 0)
    (hbound : ∀ p ∈ ps, p.1 < (mem.tables (mem.vptr inst)).length)
    (hsmall : ∀ p ∈ ps, p.1 < 65536)
    (hnodup : (ps.map Prod.fst).Nodup) :
    (∀ (s : c_vtable_hook) (m : Mem), s.m_hooks = [] →
      c_vtable_hook.unhook_all s m = (s, m)) ∧
    ∃ (s' : c_vtable_hook) (mem' : Mem),
      installAll vfAlways vtableAlloc
          (c_vtable_hook.ofInstance inst .vfunc_swap) mem ps =
        some (s', mem') ∧
      s'.m_hooks.length = ps.length ∧
      (c_vtable_hook.unhook_all s' mem').1.m_hooks = [] ∧
      ∀ p ∈ ps,
        ((c_vtable_hook.unhook_all s' mem').2.tables
            ((c_vtable_hook.unhook_all s' mem').2.vptr inst))[p.1]? =
          (mem.tables (mem.vptr inst))[p.1]? := by
  constructor
  · intro s m h
    cases s with
    | mk a b hooks =>
      cases h
      rfl
  · obtain ⟨mem', hrun, hvp, hlen'⟩ :=
      installAll_vfunc_spec vtableAlloc inst (mem.vptr inst)
        (mem.tables (mem.vptr inst)) hz ps [] mem rfl rfl hbound hsmall
        hnodup (fun _ _ => rfl)
    obtain ⟨hv2, hrestore⟩ :=
      unhookAll_vfunc_restore (mem.vptr inst) (mem.tables (mem.vptr inst))
        ps mem' hlen' hbound hnodup
    refine ⟨⟨inst, .vfunc_swap,
        [] ++ entriesOf (mem.tables (mem.vptr inst)) (mem.vptr inst) ps⟩,
      mem', hrun, by simp [entriesOf], rfl, ?_⟩
    intro p hp
    have hEnd : c_vtable_hook.unhook_all
        ⟨inst, .vfunc_swap,
          [] ++ entriesOf (mem.tables (mem.vptr inst)) (mem.vptr inst) ps⟩
        mem' =
        (⟨inst, .vfunc_swap, []⟩,
          List.foldl unhookEntry mem'
            (entriesOf (mem.tables (mem.vptr inst)) (mem.vptr inst) ps)) :=
      rfl
    rw [hEnd]
    have hvi : (List.foldl unhookEntry mem'
        (entriesOf (mem.tables (mem.vptr inst)) (mem.vptr inst) ps)).vptr
          inst = mem.vptr inst := by
      rw [hv2, hvp]
    rw [hvi]
    exact hrestore p hp

/-- C6 witness: two successful single-slot installs at slots 0 and 1
(both below the truncation bound) of table `[100, 101]` on instance 1,
then `unhook_all`: both slots read back their captured values and the
entry list is empty. -/
theorem vtable_bulk_teardown_amended_witness :
    (∀ (s : c_vtable_hook) (m : Mem), s.m_hooks = [] →
      c_vtable_hook.unhook_all s m = (s, m)) ∧
    ∃ (s' : c_vtable_hook) (mem' : Mem),
      installAll vfAlways vtNever
          (c_vtable_hook.ofInstance 1 .vfunc_swap) memW [(0, 200), (1, 201)] =
        some (s', mem') ∧
      s'.m_hooks.length = [(0, 200), (1, 201)].length ∧
      (c_vtable_hook.unhook_all s' mem').1.m_hooks = [] ∧
      ∀ p ∈ [(0, 200), (1, 201)],
        ((c_vtable_hook.unhook_all s' mem').2.tables
            ((c_vtable_hook.unhook_all s' mem').2.vptr 1))[p.1]? =
          (memW.tables (memW.vptr 1))[p.1]? :=
  vtable_bulk_teardown_amended vtNever 1 memW [(0, 200), (1, 201)]
    (by decide) (by decide) (by decide) (by decide)
